import Mathlib

/-!
Verification of the MIC-trend / renal-dosing core of the AMR-Guard repository.

Shallow embedding conventions:
* Python floats are modelled as exact rationals (`ℚ`); the transcendental
  operations (`**` with fractional exponent, `math.log2`, `math.log`) are
  modelled over `ℝ` with `Real.rpow` / `Real.log`.
* `round(x, d)` is modelled by `qround d` on `ℚ` (resp. `rround d` on `ℝ`):
  multiply by `10^d`, round to the nearest integer, divide back.  Python's
  tie-breaking (half-to-even on binary doubles) differs from `round`'s
  half-up only at exact ties, which no property below depends on.
* A Python value `float("inf")` (produced by `calculate_mic_trend` for a
  non-positive baseline, and by `inf ** e`) is modelled by the `inf`
  constructor of `QInf` (rational payloads) / `RInf` (real payloads).
* A raised exception is modelled by an `Option`-valued function returning
  `none`.  Division sites that Python executes unguarded go through
  `pydiv` (`none` on a zero divisor, i.e. `ZeroDivisionError`); the float
  power `b ** e` with `b < 0` and non-integral `e` yields a `complex` in
  Python, on which the subsequent `round(velocity, 3)` raises `TypeError` -
  this is modelled by `QInf.powOpt` returning `none` in exactly that case.
* Python truthiness tests on optional floats (`if use_ibw and height_cm:`,
  `if s_bp and current < s_bp:`) are modelled as "is `some` of a nonzero
  value", matching CPython's falsiness of `None` and `0.0`.
-/

/-- Model of Python `round(x, d)` for a rational `x`: round
`x * 10^d` to the nearest integer and scale back. -/
def qround (d : ℕ) (x : ℚ) : ℚ :=
  ((round (x * 10 ^ d) : ℤ) : ℚ) / 10 ^ d

/-- Model of Python `round(x, d)` for a real `x`. -/
noncomputable def rround (d : ℕ) (x : ℝ) : ℝ :=
  ((round (x * 10 ^ d) : ℤ) : ℝ) / 10 ^ d

/-- Patient sex, source literal type `Literal["male", "female"]`. -/
inductive Sex where
  | male
  | female
deriving DecidableEq, Repr

/-- Source `calculate_ibw` (utils.py): Devine ideal body weight,
rounded to one decimal place. -/
def calculate_ibw (height_cm : ℚ) (sex : Sex) : ℚ :=
  let height_inches := height_cm / 2.54
  let height_over_60 := max 0 (height_inches - 60)
  let ibw := if sex = Sex.male then 50 + 2.3 * height_over_60
             else 45.5 + 2.3 * height_over_60
  qround 1 ibw

/-- Source `calculate_adjusted_bw` (utils.py): adjusted body weight for
obese patients, rounded to one decimal place. -/
def calculate_adjusted_bw (ibw actual_weight : ℚ) : ℚ :=
  qround 1 (ibw + 0.4 * (actual_weight - ibw))

/-- Source `calculate_crcl` (utils.py): Cockcroft-Gault creatinine
clearance.  The two `raise ValueError` sites are modelled by `none`.
The Python guard `if use_ibw and height_cm:` is truthiness: it is taken
only when `use_ibw` is true and `height_cm` is neither `None` nor `0`. -/
def calculate_crcl (age_years weight_kg serum_creatinine_mg_dl : ℚ)
    (sex : Sex) (use_ibw : Bool) (height_cm : Option ℚ) : Option ℚ :=
  if serum_creatinine_mg_dl ≤ 0 then none
  else if age_years ≤ 0 ∨ weight_kg ≤ 0 then none
  else
    let weight :=
      match height_cm with
      | some h =>
          if use_ibw ∧ h ≠ 0 then
            let ibw := calculate_ibw h sex
            if ibw * 1.3 < weight_kg then calculate_adjusted_bw ibw weight_kg
            else ibw
          else weight_kg
      | none => weight_kg
    let crcl := ((140 - age_years) * weight) / (72 * serum_creatinine_mg_dl)
    let crcl := if sex = Sex.female then crcl * 0.85 else crcl
    some (qround 1 crcl)

/-- Source `get_renal_dose_category` (utils.py): five-bin threshold
lookup on creatinine clearance. -/
def get_renal_dose_category (crcl : ℚ) : String :=
  if 90 ≤ crcl then "normal"
  else if 60 ≤ crcl then "mild_impairment"
  else if 30 ≤ crcl then "moderate_impairment"
  else if 15 ≤ crcl then "severe_impairment"
  else "esrd"

/-- A Python float that is either an exact rational or `float("inf")`. -/
inductive QInf where
  | fin (q : ℚ)
  | inf
deriving DecidableEq, Repr

/-- Python `x >= q` for `x` possibly infinite. -/
def QInf.geQ : QInf → ℚ → Bool
  | QInf.fin a, q => decide (q ≤ a)
  | QInf.inf, _ => true

/-- Python `x < q` for `x` possibly infinite. -/
def QInf.ltQ : QInf → ℚ → Bool
  | QInf.fin a, q => decide (a < q)
  | QInf.inf, _ => false

/-- Python `x > q` for `x` possibly infinite. -/
def QInf.gtQ : QInf → ℚ → Bool
  | QInf.fin a, q => decide (q < a)
  | QInf.inf, _ => true

/-- Python `round(x, d)`; `round(float("inf"), d)` returns `inf`. -/
def QInf.roundTo (d : ℕ) : QInf → QInf
  | QInf.fin a => QInf.fin (qround d a)
  | QInf.inf => QInf.inf

/-- A real-valued Python float or `float("inf")` (used for the velocity,
whose value `fold_change ** (1 / (n - 1))` is irrational in general). -/
inductive RInf where
  | fin (x : ℝ)
  | inf

/-- Python `round(x, 3)` on a possibly-infinite real. -/
noncomputable def RInf.roundTo3 : RInf → RInf
  | RInf.fin x => RInf.fin (rround 3 x)
  | RInf.inf => RInf.inf

/-- Python `x > 1.0` on a possibly-infinite real (as a proposition). -/
def RInf.gtOne : RInf → Prop
  | RInf.fin x => 1 < x
  | RInf.inf => True

/-- Model of Python float `**`: for a nonnegative (or infinite) base the
result is `Real.rpow`; for a negative base with a non-integral exponent
CPython returns a `complex`, on which the caller's `round(·, 3)` raises
`TypeError` - modelled by `none`.  (`Real.rpow b e` agrees with the
Python value for a negative base with integral exponent as well, by
`Real.rpow_intCast`.)  `inf ** e` is `inf`, `1.0`, or `0.0` according to
the sign of `e`. -/
noncomputable def QInf.powOpt : QInf → ℚ → Option RInf
  | QInf.fin b, e =>
      if b < 0 ∧ e.den ≠ 1 then none
      else some (RInf.fin ((b : ℝ) ^ (e : ℝ)))
  | QInf.inf, e =>
      some (if 0 < e then RInf.inf else if e = 0 then RInf.fin 1 else RInf.fin 0)

/-- An unguarded Python division: `ZeroDivisionError` is `none`. -/
def pydiv (a b : ℚ) : Option ℚ :=
  if b = 0 then none else some (a / b)

/-- The margin computation of `_assess_mic_risk` (utils.py, line 221):
`s_bp / current_mic if current_mic > 0 else float("inf")`. -/
def mic_margin (current_mic s_bp : ℚ) : QInf :=
  if 0 < current_mic then QInf.fin (s_bp / current_mic) else QInf.inf

/-- The alert message attached to each outcome of the risk assessment,
one constructor per `return` site of `_assess_mic_risk` (plus the
sentinel message of `calculate_mic_trend`).  Each constructor carries
the values interpolated into the corresponding f-string. -/
inductive MicAlert where
  | needAtLeastTwo
  | exceedsResistant (current_mic r_bp : ℚ)
  | exceedsSusceptible (current_mic s_bp : ℚ)
  | approachingBreakpoint (margin : QInf)
  | closeToBreakpoint (margin : QInf)
  | risingWithMargin (margin : QInf)
  | stableAdequateMargin
  | wellBelowBreakpoint
  | foldCritical (fold_change : QInf)
  | foldHigh (fold_change : QInf)
  | foldModerateRising (fold_change : QInf)
  | foldButTrend (fold_change : QInf) (trend : String)
  | upwardTrend
  | stableOrDecreasing
deriving DecidableEq, Repr

/-- Source `_assess_mic_risk` (utils.py): risk level and alert from the
current MIC, fold change, trend, and optional breakpoints.  The
`baseline_mic` parameter is passed by the source but unused, and is kept
for fidelity. -/
def assess_mic_risk (current_mic baseline_mic : ℚ) (fold_change : QInf)
    (trend : String) (s_breakpoint r_breakpoint : Option ℚ) :
    String × MicAlert :=
  match s_breakpoint, r_breakpoint with
  | some s_bp, some r_bp =>
      if r_bp < current_mic then
        ("CRITICAL", MicAlert.exceedsResistant current_mic r_bp)
      else if s_bp < current_mic then
        ("HIGH", MicAlert.exceedsSusceptible current_mic s_bp)
      else if (mic_margin current_mic s_bp).ltQ 2 then
        if trend = "increasing" then
          ("HIGH", MicAlert.approachingBreakpoint (mic_margin current_mic s_bp))
        else
          ("MODERATE", MicAlert.closeToBreakpoint (mic_margin current_mic s_bp))
      else if (mic_margin current_mic s_bp).ltQ 4 then
        if trend = "increasing" then
          ("MODERATE", MicAlert.risingWithMargin (mic_margin current_mic s_bp))
        else
          ("LOW", MicAlert.stableAdequateMargin)
      else
        ("LOW", MicAlert.wellBelowBreakpoint)
  | _, _ =>
      if fold_change.geQ 8 then
        ("CRITICAL", MicAlert.foldCritical fold_change)
      else if fold_change.geQ 4 then
        ("HIGH", MicAlert.foldHigh fold_change)
      else if fold_change.geQ 2 then
        if trend = "increasing" then
          ("MODERATE", MicAlert.foldModerateRising fold_change)
        else
          ("LOW", MicAlert.foldButTrend fold_change trend)
      else if trend = "increasing" then
        ("MODERATE", MicAlert.upwardTrend)
      else
        ("LOW", MicAlert.stableOrDecreasing)

/-- The denominator `sum((i - x_mean) ** 2 for i in range(n))` of the
regression slope in `calculate_mic_trend` (utils.py). -/
def mic_slope_den (mics : List ℚ) : ℚ :=
  ((List.range mics.length).map
    (fun (i : ℕ) => ((i : ℚ) - ((mics.length : ℚ) - 1) / 2) ^ 2)).sum

/-- The numerator `sum((i - x_mean) * (mics[i] - y_mean) for i in
range(n))` of the regression slope in `calculate_mic_trend` (utils.py),
with the source's `x_mean = (n - 1) / 2` inlined. -/
def mic_slope_num (mics : List ℚ) (y_mean : ℚ) : ℚ :=
  ((List.range mics.length).map
    (fun (i : ℕ) => ((i : ℚ) - ((mics.length : ℚ) - 1) / 2) *
      (mics.getD i 0 - y_mean))).sum

/-- The regression slope of `calculate_mic_trend` (utils.py, line 168):
`numerator / denominator if denominator != 0 else 0`. -/
def mic_slope (mics : List ℚ) (y_mean : ℚ) : ℚ :=
  if mic_slope_den mics ≠ 0 then mic_slope_num mics y_mean / mic_slope_den mics
  else 0

/-- The trend-direction block of `calculate_mic_trend` (utils.py,
lines 160-182): regression slope against `±0.5` for three or more
readings, multiplicative thresholds `1.5` / `0.67` for two.  The
unguarded Python division `y_mean = sum(mics) / n` goes through
`pydiv`; the slope division is guarded by the source. -/
def mic_trend_direction (mics : List ℚ) (baseline_mic current_mic : ℚ) :
    Option String :=
  if 3 ≤ mics.length then
    (pydiv mics.sum (mics.length : ℚ)).bind fun y_mean =>
      some (if 0.5 < mic_slope mics y_mean then "increasing"
            else if mic_slope mics y_mean < -0.5 then "decreasing"
            else "stable")
  else
    some (if baseline_mic * 1.5 < current_mic then "increasing"
          else if current_mic < baseline_mic * 0.67 then "decreasing"
          else "stable")

/-- The fold-change computation of `calculate_mic_trend` (utils.py,
lines 154-158): `current / baseline` when `baseline > 0`, otherwise
`float("inf")`. -/
def mic_fold_change (mics : List ℚ) : QInf :=
  if 0 < mics.headI then QInf.fin (mics.getLastD 0 / mics.headI)
  else QInf.inf

/-- The velocity computation of `calculate_mic_trend` (utils.py,
line 185): `fold_change ** (1 / (len(mics) - 1)) if len(mics) > 1
else 1.0`. -/
noncomputable def mic_velocity (mics : List ℚ) : Option RInf :=
  if 1 < mics.length then
    (pydiv 1 ((mics.length : ℚ) - 1)).bind fun e => (mic_fold_change mics).powOpt e
  else some (RInf.fin 1)

/-- The result record of `calculate_mic_trend` / `analyze_trend`.  The
sentinel (fewer than two readings) populates only the first three
fields; the Python dict simply lacks the other keys, modelled by
`none`. -/
structure MicResult where
  trend : String
  risk_level : String
  alert : MicAlert
  baseline_mic : Option ℚ
  current_mic : Option ℚ
  ratio : Option QInf
  velocity : Option RInf
  n_readings : Option ℕ

/-- The sentinel result returned for fewer than two readings. -/
def micInsufficientData : MicResult :=
  ⟨"insufficient_data", "UNKNOWN", MicAlert.needAtLeastTwo,
    none, none, none, none, none⟩

/-- Source `calculate_mic_trend` (utils.py), the spec's
`analyze_trend`: MIC trend analysis over an ordered reading list (the
`mic_value` floats, already extracted) and optional breakpoints.  A
raised exception is `none`; the only reachable raise site is the
velocity power (see `QInf.powOpt`). -/
noncomputable def calculate_mic_trend (mic_values : List ℚ)
    (susceptible_breakpoint resistant_breakpoint : Option ℚ) :
    Option MicResult :=
  if mic_values.length < 2 then some micInsufficientData
  else
    let baseline_mic := mic_values.headI
    let current_mic := mic_values.getLastD 0
    let fold_change := mic_fold_change mic_values
    (mic_trend_direction mic_values baseline_mic current_mic).bind fun trend =>
    (mic_velocity mic_values).bind fun velocity =>
    let ra := assess_mic_risk current_mic baseline_mic fold_change trend
        susceptible_breakpoint resistant_breakpoint
    some ⟨trend, ra.1, ra.2, some baseline_mic, some current_mic,
          some (fold_change.roundTo 2), some velocity.roundTo3,
          some mic_values.length⟩

/-- The result record of `detect_mic_creep` (utils.py): the trend
analysis plus context fields and the optional
`estimated_readings_to_resistance`. -/
structure CreepResult where
  base : MicResult
  organism : String
  antibiotic : String
  breakpoint_susceptible : Option ℚ
  breakpoint_resistant : Option ℚ
  estimated_readings_to_resistance : Option ℝ

/-- Python `trend_analysis["velocity"] > 1.0` in `detect_mic_creep`.
The `none` case (sentinel result, no `velocity` key) is unreachable:
the conjunct is only evaluated after `trend == "increasing"`, which the
sentinel (`"insufficient_data"`) never satisfies. -/
def velocityKeyGtOne : Option RInf → Prop
  | some v => v.gtOne
  | none => False

/-- The time-estimate block of `detect_mic_creep` (utils.py, lines
293-304): `doublings_needed = log2(s_bp / current) if current > 0 else
0`, `log_velocity = math.log(velocity) / math.log(2)` on the reported
(3-decimal-rounded) velocity, and the estimate
`round(doublings_needed / log_velocity, 1)` when `log_velocity > 0`.
With an infinite velocity Python computes `doublings / inf = 0.0`. -/
noncomputable def timeEstimate (velocity : RInf) (doublings_needed : ℝ) :
    Option ℝ :=
  match velocity with
  | RInf.fin v =>
      if 0 < Real.log v / Real.log 2 then
        some (rround 1 (doublings_needed / (Real.log v / Real.log 2)))
      else none
  | RInf.inf => some 0

open scoped Classical in
/-- The time-to-resistance block of `detect_mic_creep` (utils.py,
lines 293-304), producing the optional
`estimated_readings_to_resistance` value from the trend-analysis
result.  The Python guard `if s_bp and current < s_bp:` is truthiness
on `s_bp` (falsy for `None` and `0.0`);
`doublings_needed = math.log2(s_bp / current) if current > 0 else 0`. -/
noncomputable def creep_estimate (bp_susceptible : Option ℚ)
    (ta : MicResult) : Option ℝ :=
  if ta.trend = "increasing" ∧ velocityKeyGtOne ta.velocity then
    match bp_susceptible, ta.current_mic, ta.velocity with
    | some s_bp, some current, some velocity =>
        if s_bp ≠ 0 ∧ current < s_bp then
          timeEstimate velocity
            (if 0 < current then Real.logb 2 ((s_bp : ℝ) / (current : ℝ))
             else 0)
        else none
    | _, _, _ => none
  else none

/-- Source `detect_mic_creep` (utils.py): runs the trend analysis with
the organism/antibiotic breakpoints and attaches the optional
time-to-resistance estimate. -/
noncomputable def detect_mic_creep (organism antibiotic : String)
    (mic_history : List ℚ) (bp_susceptible bp_resistant : Option ℚ) :
    Option CreepResult :=
  (calculate_mic_trend mic_history bp_susceptible bp_resistant).bind fun ta =>
  some ⟨ta, organism, antibiotic, bp_susceptible, bp_resistant,
        creep_estimate bp_susceptible ta⟩

/-! Spec-side definitions, written from the claims' own wording, to be
compared with the definitions embedded from the source. -/

/-- Claim C2, breakpoint-aware path, transcribed clause by clause:
margin is `susceptible_breakpoint / current` guarded for `current > 0`;
`current > resistant` is CRITICAL; else `current > susceptible` is HIGH;
else `margin < 2` is HIGH when increasing and MODERATE otherwise; else
`margin < 4` is MODERATE when increasing and LOW otherwise; else LOW. -/
def spec_risk_with_breakpoints (current : ℚ) (trend : String)
    (s_bp r_bp : ℚ) : String × MicAlert :=
  if r_bp < current then ("CRITICAL", MicAlert.exceedsResistant current r_bp)
  else if s_bp < current then ("HIGH", MicAlert.exceedsSusceptible current s_bp)
  else if (mic_margin current s_bp).ltQ 2 = true ∧ trend = "increasing" then
    ("HIGH", MicAlert.approachingBreakpoint (mic_margin current s_bp))
  else if (mic_margin current s_bp).ltQ 2 then
    ("MODERATE", MicAlert.closeToBreakpoint (mic_margin current s_bp))
  else if (mic_margin current s_bp).ltQ 4 = true ∧ trend = "increasing" then
    ("MODERATE", MicAlert.risingWithMargin (mic_margin current s_bp))
  else if (mic_margin current s_bp).ltQ 4 then
    ("LOW", MicAlert.stableAdequateMargin)
  else ("LOW", MicAlert.wellBelowBreakpoint)

/-- Claim C2, breakpoint-free path, transcribed clause by clause:
`ratio >= 8` is CRITICAL; else `ratio >= 4` is HIGH; else `ratio >= 2`
is MODERATE when increasing and LOW otherwise; else an increasing trend
is MODERATE; else LOW. -/
def spec_risk_fallback (ratio : QInf) (trend : String) : String × MicAlert :=
  if ratio.geQ 8 then ("CRITICAL", MicAlert.foldCritical ratio)
  else if ratio.geQ 4 then ("HIGH", MicAlert.foldHigh ratio)
  else if ratio.geQ 2 = true ∧ trend = "increasing" then
    ("MODERATE", MicAlert.foldModerateRising ratio)
  else if ratio.geQ 2 then ("LOW", MicAlert.foldButTrend ratio trend)
  else if trend = "increasing" then ("MODERATE", MicAlert.upwardTrend)
  else ("LOW", MicAlert.stableOrDecreasing)

/-- Claim C9's five categories with two-sided, lower-inclusive bins. -/
def spec_renal_category (crcl : ℚ) : String :=
  if 90 ≤ crcl then "normal"
  else if 60 ≤ crcl ∧ crcl < 90 then "mild_impairment"
  else if 30 ≤ crcl ∧ crcl < 60 then "moderate_impairment"
  else if 15 ≤ crcl ∧ crcl < 30 then "severe_impairment"
  else "esrd"

/-- Claim C3's ordinary-least-squares slope through the points
`(index, value)` for `index = 0 .. n-1`, written with textbook centred
sums over `Finset.range` and the means `(Σ index) / n` and
`(Σ value) / n` (written out in place). -/
def spec_ols_slope (mics : List ℚ) : ℚ :=
  (∑ i ∈ Finset.range mics.length,
      (((i : ℚ) -
          (∑ j ∈ Finset.range mics.length, (j : ℚ)) / (mics.length : ℚ)) *
        (mics.getD i 0 -
          (∑ j ∈ Finset.range mics.length, mics.getD j 0) /
            (mics.length : ℚ)))) /
    (∑ i ∈ Finset.range mics.length,
      ((i : ℚ) -
          (∑ j ∈ Finset.range mics.length, (j : ℚ)) / (mics.length : ℚ)) ^ 2)

/-- Claim C3's two-reading rule as literally stated: thresholds on the
ratio itself (`ratio > 1.5` increasing, `ratio < 0.67` decreasing). -/
def spec_trend_two_from_ratio (ratio : QInf) : String :=
  if ratio.gtQ 1.5 then "increasing"
  else if ratio.ltQ 0.67 then "decreasing"
  else "stable"

/-- Claim C4/C5's Cockcroft-Gault sex factor. -/
def spec_sex_factor (sex : Sex) : ℚ :=
  if sex = Sex.female then 0.85 else 1

/-- Claim C5's Devine ideal body weight, as literally stated (no
rounding): `base + 2.3 * max(0, height_cm / 2.54 - 60)`. -/
def spec_devine_ibw (height_cm : ℚ) (sex : Sex) : ℚ :=
  (if sex = Sex.male then (50 : ℚ) else 45.5) + 2.3 * max 0 (height_cm / 2.54 - 60)

/-- Claim C5's weight selection as amended: the Devine IBW rounded to
one decimal, replaced by the (also rounded) adjusted body weight
exactly when the actual weight exceeds `1.3 * IBW`. -/
def spec_weight_used (height_cm : ℚ) (sex : Sex) (actual_weight : ℚ) : ℚ :=
  let ibw := qround 1 (spec_devine_ibw height_cm sex)
  if ibw * 1.3 < actual_weight then qround 1 (ibw + 0.4 * (actual_weight - ibw))
  else ibw

/-! Helper lemmas. -/

lemma list_range_map_sum (n : ℕ) (f : ℕ → ℚ) :
    ((List.range n).map f).sum = ∑ i ∈ Finset.range n, f i := by
  induction n with
  | zero => simp
  | succ k ih => rw [List.range_succ, Finset.sum_range_succ, List.map_append,
      List.sum_append, ih]; simp

lemma sum_range_cast (n : ℕ) :
    (∑ i ∈ Finset.range n, (i : ℚ)) = (n : ℚ) * ((n : ℚ) - 1) / 2 := by
  induction n with
  | zero => simp
  | succ k ih => rw [Finset.sum_range_succ, ih]; push_cast; ring

lemma list_sum_eq_sum_getD (mics : List ℚ) :
    mics.sum = ∑ i ∈ Finset.range mics.length, mics.getD i 0 := by
  induction mics with
  | nil => simp
  | cons x xs ih =>
      rw [List.sum_cons, List.length_cons, Finset.sum_range_succ', ih]
      simp
      ring

lemma getLastD_mem_of_ne_nil {mics : List ℚ} (h : mics ≠ []) (d : ℚ) :
    mics.getLastD d ∈ mics := by
  rw [List.getLastD_eq_getLast? , List.getLast?_eq_getLast mics h]
  exact List.getLast_mem h

lemma ne_nil_of_two_le {mics : List ℚ} (h : 2 ≤ mics.length) : mics ≠ [] := by
  intro hnil; rw [hnil] at h; simp at h

lemma mic_trend_direction_isSome (mics : List ℚ) (b c : ℚ)
    (h : 2 ≤ mics.length) : ∃ t, mic_trend_direction mics b c = some t := by
  unfold mic_trend_direction
  by_cases h3 : 3 ≤ mics.length
  · rw [if_pos h3]
    have hn : ((mics.length : ℚ)) ≠ 0 := by
      have : (0 : ℕ) < mics.length := by omega
      exact_mod_cast this.ne'
    simp [pydiv, hn]
  · rw [if_neg h3]; exact ⟨_, rfl⟩

lemma mic_velocity_inf_of_baseline_nonpos (mics : List ℚ)
    (h2 : 2 ≤ mics.length) (hb : mics.headI ≤ 0) :
    mic_velocity mics = some RInf.inf := by
  have hlen : (1 : ℚ) ≤ (mics.length : ℚ) - 1 := by
    have h1 : (2 : ℚ) ≤ (mics.length : ℚ) := by exact_mod_cast h2
    linarith
  have hne : ((mics.length : ℚ) - 1) ≠ 0 := by linarith
  have hfold : mic_fold_change mics = QInf.inf := by
    unfold mic_fold_change; rw [if_neg (not_lt.2 hb)]
  unfold mic_velocity
  rw [if_pos (by omega : 1 < mics.length), hfold]
  simp only [pydiv, if_neg hne, Option.some_bind, QInf.powOpt]
  rw [if_pos (by positivity : 0 < 1 / ((mics.length : ℚ) - 1))]

lemma mic_velocity_some_of_current_nonneg (mics : List ℚ)
    (h2 : 2 ≤ mics.length) (hc : 0 ≤ mics.getLastD 0) :
    ∃ v, mic_velocity mics = some v := by
  have hlen : (1 : ℚ) ≤ (mics.length : ℚ) - 1 := by
    have h1 : (2 : ℚ) ≤ (mics.length : ℚ) := by exact_mod_cast h2
    linarith
  have hne : ((mics.length : ℚ) - 1) ≠ 0 := by linarith
  unfold mic_velocity
  rw [if_pos (by omega : 1 < mics.length)]
  simp only [pydiv, if_neg hne, Option.some_bind]
  unfold mic_fold_change
  by_cases hb : 0 < mics.headI
  · rw [if_pos hb]
    simp only [QInf.powOpt]
    have hq : ¬ (mics.getLastD 0 / mics.headI < 0 ∧
        ((1 : ℚ) / ((mics.length : ℚ) - 1)).den ≠ 1) := by
      intro h
      exact absurd (div_nonneg hc hb.le) (not_le.2 h.1)
    rw [if_neg hq]
    exact ⟨_, rfl⟩
  · rw [if_neg hb]
    simp only [QInf.powOpt]
    exact ⟨_, rfl⟩

lemma calculate_mic_trend_eq (mics : List ℚ) (s r : Option ℚ)
    (trend : String) (velocity : RInf) (h2 : 2 ≤ mics.length)
    (ht : mic_trend_direction mics mics.headI (mics.getLastD 0) = some trend)
    (hv : mic_velocity mics = some velocity) :
    calculate_mic_trend mics s r = some
      ⟨trend,
       (assess_mic_risk (mics.getLastD 0) mics.headI (mic_fold_change mics)
          trend s r).1,
       (assess_mic_risk (mics.getLastD 0) mics.headI (mic_fold_change mics)
          trend s r).2,
       some mics.headI, some (mics.getLastD 0),
       some ((mic_fold_change mics).roundTo 2), some velocity.roundTo3,
       some mics.length⟩ := by
  unfold calculate_mic_trend
  rw [if_neg (by omega : ¬ mics.length < 2)]
  simp only [ht, hv, Option.some_bind]

/-- Claim C9 (amended): `classify_renal_function` (source
`get_renal_dose_category`) is total and maps every CrCl value to exactly
one of five categories with lower-inclusive boundaries (negative values
fall into `esrd`); the stated boundary inputs map as claimed except that
`29.9` falls below the `30` boundary and therefore yields
`severe_impairment`, not `moderate_impairment` as the claim stated.
Totality and exhaustiveness hold by construction (the embedding is a
total function into the five strings). -/
theorem c9_renal_categories :
    (∀ crcl : ℚ, get_renal_dose_category crcl = spec_renal_category crcl) ∧
    get_renal_dose_category 90 = "normal" ∧
    get_renal_dose_category 89.9 = "mild_impairment" ∧
    get_renal_dose_category 60 = "mild_impairment" ∧
    get_renal_dose_category 29.9 = "severe_impairment" ∧
    get_renal_dose_category 15 = "severe_impairment" ∧
    get_renal_dose_category 14.9 = "esrd" ∧
    get_renal_dose_category (-5) = "esrd" := by
  refine ⟨fun crcl => ?_, by norm_num [get_renal_dose_category],
    by norm_num [get_renal_dose_category], by norm_num [get_renal_dose_category],
    by norm_num [get_renal_dose_category], by norm_num [get_renal_dose_category],
    by norm_num [get_renal_dose_category], by norm_num [get_renal_dose_category]⟩
  unfold get_renal_dose_category spec_renal_category
  rcases le_or_lt 90 crcl with h1 | h1
  · rw [if_pos h1, if_pos h1]
  · rw [if_neg (not_le.2 h1), if_neg (not_le.2 h1)]
    rcases le_or_lt 60 crcl with h2 | h2
    · rw [if_pos h2, if_pos ⟨h2, h1⟩]
    · rw [if_neg (not_le.2 h2),
        if_neg (show ¬ (60 ≤ crcl ∧ crcl < 90) from
          fun hc => absurd hc.1 (not_le.2 h2))]
      rcases le_or_lt 30 crcl with h3 | h3
      · rw [if_pos h3, if_pos ⟨h3, h2⟩]
      · rw [if_neg (not_le.2 h3),
          if_neg (show ¬ (30 ≤ crcl ∧ crcl < 60) from
            fun hc => absurd hc.1 (not_le.2 h3))]
        rcases le_or_lt 15 crcl with h4 | h4
        · rw [if_pos h4, if_pos ⟨h4, h3⟩]
        · rw [if_neg (not_le.2 h4),
            if_neg (show ¬ (15 ≤ crcl ∧ crcl < 30) from
              fun hc => absurd hc.1 (not_le.2 h4))]

/-- Claim C6: `estimate_crcl` (source `calculate_crcl`) fails exactly
when `age <= 0` or `weight <= 0` or `serum creatinine <= 0`; on valid
inputs it returns a (finite, rational) value, which can be negative for
ages above 140 - no clamping: `calculate_crcl 150 70 1 male = -9.7`. -/
theorem c6_invalid_input_iff :
    (∀ (age weight scr : ℚ) (sex : Sex) (use_ibw : Bool) (height : Option ℚ),
        calculate_crcl age weight scr sex use_ibw height = none ↔
          age ≤ 0 ∨ weight ≤ 0 ∨ scr ≤ 0) ∧
    calculate_crcl 150 70 1 Sex.male false none = some (-9.7) := by
  constructor
  · intro age weight scr sex u height
    unfold calculate_crcl
    by_cases h1 : scr ≤ 0
    · rw [if_pos h1]
      simp only [eq_self_iff_true, true_iff]
      exact Or.inr (Or.inr h1)
    · rw [if_neg h1]
      by_cases h2 : age ≤ 0 ∨ weight ≤ 0
      · rw [if_pos h2]
        simp only [eq_self_iff_true, true_iff]
        tauto
      · rw [if_neg h2]
        constructor
        · intro hc; exact (Option.some_ne_none _ hc).elim
        · intro hc
          rcases hc with h | h | h
          · exact absurd (Or.inl h) h2
          · exact absurd (Or.inr h) h2
          · exact absurd h h1
  · have h : (Sex.male = Sex.female) = False := eq_false (by decide)
    norm_num [calculate_crcl, qround, round_eq, h]

/-- Claim C4: with `use_ideal_weight = false` and positive inputs,
`estimate_crcl` returns `round1(((140 - age) * weight) / (72 * scr) * f)`
with `f = 0.85` for female and `1` otherwise; the female result is
exactly `0.85` times the male pre-rounding value (then rounded); and
`calculate_crcl 65 70 1.2 male = 60.8`. -/
theorem c4_cockcroft_gault :
    (∀ (age weight scr : ℚ) (sex : Sex) (height : Option ℚ),
        0 < age → 0 < weight → 0 < scr →
        calculate_crcl age weight scr sex false height =
          some (qround 1 (((140 - age) * weight) / (72 * scr) *
            spec_sex_factor sex))) ∧
    (∀ (age weight scr : ℚ) (height : Option ℚ),
        0 < age → 0 < weight → 0 < scr →
        calculate_crcl age weight scr Sex.female false height =
          some (qround 1 (0.85 * (((140 - age) * weight) / (72 * scr))))) ∧
    calculate_crcl 65 70 1.2 Sex.male false none = some 60.8 := by
  have key : ∀ (age weight scr : ℚ) (sex : Sex) (height : Option ℚ),
      0 < age → 0 < weight → 0 < scr →
      calculate_crcl age weight scr sex false height =
        some (qround 1 (((140 - age) * weight) / (72 * scr) *
          spec_sex_factor sex)) := by
    intro age weight scr sex height ha hw hs
    unfold calculate_crcl spec_sex_factor
    rw [if_neg (not_le.2 hs),
        if_neg (not_or.2 ⟨not_le.2 ha, not_le.2 hw⟩)]
    have hweight : (match height with
        | some h =>
            if (false : Bool) ∧ h ≠ 0 then
              let ibw := calculate_ibw h sex
              if ibw * 1.3 < weight then calculate_adjusted_bw ibw weight
              else ibw
            else weight
        | none => weight) = weight := by
      cases height with
      | none => rfl
      | some h => simp
    cases sex with
    | male =>
        have h : (Sex.male = Sex.female) = False := eq_false (by decide)
        simp only [hweight, h, if_false]
        norm_num
    | female =>
        simp only [hweight, if_pos rfl]
        norm_num
  refine ⟨key, fun age weight scr height ha hw hs => ?_, ?_⟩
  · rw [key age weight scr Sex.female height ha hw hs]
    congr 1
    unfold spec_sex_factor
    rw [if_pos rfl]
    ring
  · have h : (Sex.male = Sex.female) = False := eq_false (by decide)
    norm_num [calculate_crcl, qround, round_eq, h]

/-- Claim C8: for fewer than two readings `analyze_trend` (source
`calculate_mic_trend`) returns (does not raise) the sentinel with
`trend = "insufficient_data"`, `risk_level = "UNKNOWN"` and no numeric
fields populated; in particular for the single reading `[1.0]`. -/
theorem c8_insufficient_data :
    (∀ (mics : List ℚ) (s r : Option ℚ), mics.length < 2 →
        calculate_mic_trend mics s r = some micInsufficientData) ∧
    calculate_mic_trend [1] none none = some micInsufficientData ∧
    micInsufficientData.trend = "insufficient_data" ∧
    micInsufficientData.risk_level = "UNKNOWN" ∧
    micInsufficientData.alert = MicAlert.needAtLeastTwo ∧
    micInsufficientData.baseline_mic = none ∧
    micInsufficientData.current_mic = none ∧
    micInsufficientData.ratio = none ∧
    micInsufficientData.velocity = none ∧
    micInsufficientData.n_readings = none := by
  have key : ∀ (mics : List ℚ) (s r : Option ℚ), mics.length < 2 →
      calculate_mic_trend mics s r = some micInsufficientData := by
    intro mics s r h
    unfold calculate_mic_trend
    rw [if_pos h]
  exact ⟨key, key [1] none none (by norm_num), rfl, rfl, rfl, rfl, rfl, rfl,
    rfl, rfl⟩

/-- Witness for C8 at a concrete input: the empty reading list. -/
theorem c8_insufficient_data_witness :
    calculate_mic_trend [] (some 2) (some 4) = some micInsufficientData :=
  c8_insufficient_data.1 [] (some 2) (some 4) (by norm_num)

/-- Claim C2: the risk classification of `_assess_mic_risk` follows
exactly the two mutually exclusive rule sets stated in the claim - the
breakpoint-aware path when both breakpoints are supplied, the
ratio-threshold path when at least one is absent - with the
corresponding alert for every outcome. -/
theorem c2_risk_rule_sets :
    ∀ (current baseline : ℚ) (fold : QInf) (trend : String)
      (sOpt rOpt : Option ℚ) (s r : ℚ),
      assess_mic_risk current baseline fold trend (some s) (some r) =
        spec_risk_with_breakpoints current trend s r ∧
      assess_mic_risk current baseline fold trend none rOpt =
        spec_risk_fallback fold trend ∧
      assess_mic_risk current baseline fold trend sOpt none =
        spec_risk_fallback fold trend := by
  intro current baseline fold trend sOpt rOpt s r
  refine ⟨?_, ?_, ?_⟩
  · simp only [assess_mic_risk, spec_risk_with_breakpoints]
    split_ifs <;> first | rfl | tauto
  · cases rOpt <;>
      · simp only [assess_mic_risk, spec_risk_fallback]
        split_ifs <;> first | rfl | tauto
  · cases sOpt <;>
      · simp only [assess_mic_risk, spec_risk_fallback]
        split_ifs <;> first | rfl | tauto

/-- Counterexample to claim C9 as stated: the claim's concrete example
says `29.9 -> moderate_impairment`, but `29.9 < 30`, so both the code
and the claim's own binning rule put it in `severe_impairment`. -/
theorem c9_renal_categories_counterexample :
    get_renal_dose_category 29.9 = "severe_impairment" ∧
    spec_renal_category 29.9 = "severe_impairment" ∧
    ("severe_impairment" : String) ≠ "moderate_impairment" :=
  ⟨by norm_num [get_renal_dose_category],
   by norm_num [spec_renal_category],
   by decide⟩

/-- Witness for C6 at concrete inputs: each non-positive input fails,
a valid input does not. -/
theorem c6_invalid_input_iff_witness :
    calculate_crcl 0 70 1 Sex.male false none = none ∧
    calculate_crcl 65 (-1) 1 Sex.female true (some 170) = none ∧
    calculate_crcl 65 70 (-2) Sex.male false none = none ∧
    calculate_crcl 65 70 1 Sex.male false none ≠ none := by
  refine ⟨(c6_invalid_input_iff.1 0 70 1 Sex.male false none).2 (Or.inl le_rfl),
    (c6_invalid_input_iff.1 65 (-1) 1 Sex.female true (some 170)).2
      (Or.inr (Or.inl (by norm_num))),
    (c6_invalid_input_iff.1 65 70 (-2) Sex.male false none).2
      (Or.inr (Or.inr (by norm_num))),
    fun hc => ?_⟩
  have h := (c6_invalid_input_iff.1 65 70 1 Sex.male false none).1 hc
  norm_num at h

/-- Witness for C4 at a concrete input with the hypotheses discharged. -/
theorem c4_cockcroft_gault_witness :
    calculate_crcl 40 80 1 Sex.male false none =
      some (qround 1 (((140 - 40) * 80) / (72 * 1) * spec_sex_factor Sex.male)) ∧
    calculate_crcl 40 80 1 Sex.female false none =
      some (qround 1 (0.85 * (((140 - 40) * 80) / (72 * 1)))) :=
  ⟨c4_cockcroft_gault.1 40 80 1 Sex.male none (by norm_num) (by norm_num)
      (by norm_num),
   c4_cockcroft_gault.2.1 40 80 1 none (by norm_num) (by norm_num)
      (by norm_num)⟩

/-- Counterexample to claim C1 as stated: for readings `[0, 4]` the
claim predicts the finite ratio `4 / 0.001 = 4000`; the code instead
sets `fold_change = float("inf")`, so the reported ratio is infinite. -/
theorem c1_zero_baseline_counterexample :
    (calculate_mic_trend [0, 4] none none).map (fun res => res.ratio) =
      some (some QInf.inf) ∧
    some (some QInf.inf) ≠ some (some (QInf.fin (qround 2 (4 / 0.001)))) := by
  constructor
  · have h2 : (2 : ℕ) ≤ ([0, 4] : List ℚ).length := by norm_num
    obtain ⟨t, ht⟩ :=
      mic_trend_direction_isSome [0, 4] (([0, 4] : List ℚ).headI)
        (([0, 4] : List ℚ).getLastD 0) h2
    have hv := mic_velocity_inf_of_baseline_nonpos [0, 4] h2 (le_of_eq rfl)
    rw [calculate_mic_trend_eq [0, 4] none none t RInf.inf h2 ht hv]
    norm_num [mic_fold_change, QInf.roundTo]
  · intro hc
    rw [Option.some.injEq, Option.some.injEq] at hc
    exact QInf.noConfusion hc

/-- Claim C1 (amended): for two or more readings whose baseline (first)
value is `0`, `analyze_trend` does not raise a division-by-zero error;
but the reported ratio is `float("inf")` (the code substitutes positive
infinity for the fold change), not the finite `current / 0.001`. -/
theorem c1_zero_baseline_inf (mics : List ℚ) (s r : Option ℚ)
    (h2 : 2 ≤ mics.length) (hb : mics.headI = 0) :
    ∃ res, calculate_mic_trend mics s r = some res ∧
      res.ratio = some QInf.inf ∧ res.baseline_mic = some 0 := by
  obtain ⟨t, ht⟩ :=
    mic_trend_direction_isSome mics mics.headI (mics.getLastD 0) h2
  have hv := mic_velocity_inf_of_baseline_nonpos mics h2 (le_of_eq hb)
  refine ⟨_, calculate_mic_trend_eq mics s r t RInf.inf h2 ht hv, ?_, ?_⟩
  · show some ((mic_fold_change mics).roundTo 2) = some QInf.inf
    unfold mic_fold_change
    rw [hb]
    norm_num [QInf.roundTo]
  · show some mics.headI = some (0 : ℚ)
    rw [hb]

/-- Witness for the amended C1 at the concrete input `[0, 5]`. -/
theorem c1_zero_baseline_witness :
    ∃ res, calculate_mic_trend [0, 5] none none = some res ∧
      res.ratio = some QInf.inf ∧ res.baseline_mic = some 0 :=
  c1_zero_baseline_inf [0, 5] none none (by norm_num) rfl

lemma mic_slope_den_pos (mics : List ℚ) (h3 : 3 ≤ mics.length) :
    0 < mic_slope_den mics := by
  have hx : (0 : ℚ) < ((mics.length : ℚ) - 1) / 2 := by
    have : (3 : ℚ) ≤ (mics.length : ℚ) := by exact_mod_cast h3
    linarith
  unfold mic_slope_den
  rw [list_range_map_sum]
  refine Finset.sum_pos' (fun i _ => sq_nonneg _) ⟨0, ?_, ?_⟩
  · exact Finset.mem_range.2 (by omega)
  · have he : ((0 : ℕ) - ((mics.length : ℚ) - 1) / 2 : ℚ) ^ 2 =
        (((mics.length : ℚ) - 1) / 2) ^ 2 := by push_cast; ring
    rw [he]
    exact pow_pos hx 2

lemma length_cast_ne_zero {mics : List ℚ} (h : 2 ≤ mics.length) :
    ((mics.length : ℚ)) ≠ 0 := by
  have : (0 : ℕ) < mics.length := by omega
  exact_mod_cast this.ne'

lemma spec_ols_slope_eq (mics : List ℚ) (h3 : 3 ≤ mics.length) :
    spec_ols_slope mics =
      mic_slope_num mics (mics.sum / (mics.length : ℚ)) /
        mic_slope_den mics := by
  have hn : ((mics.length : ℚ)) ≠ 0 := length_cast_ne_zero (by omega)
  have hx : (∑ j ∈ Finset.range mics.length, (j : ℚ)) / (mics.length : ℚ) =
      ((mics.length : ℚ) - 1) / 2 := by
    rw [sum_range_cast]
    field_simp
    ring
  unfold spec_ols_slope mic_slope_num mic_slope_den
  rw [list_range_map_sum, list_range_map_sum, hx, ← list_sum_eq_sum_getD]

lemma mic_slope_eq_spec (mics : List ℚ) (h3 : 3 ≤ mics.length) :
    mic_slope mics (mics.sum / (mics.length : ℚ)) = spec_ols_slope mics := by
  unfold mic_slope
  rw [if_pos (mic_slope_den_pos mics h3).ne', spec_ols_slope_eq mics h3]

lemma mic_trend_direction_slope (mics : List ℚ) (b c : ℚ)
    (h3 : 3 ≤ mics.length) :
    mic_trend_direction mics b c =
      some (if 0.5 < spec_ols_slope mics then "increasing"
            else if spec_ols_slope mics < -0.5 then "decreasing"
            else "stable") := by
  have hn : ((mics.length : ℚ)) ≠ 0 := length_cast_ne_zero (by omega)
  unfold mic_trend_direction
  rw [if_pos h3]
  simp only [pydiv, if_neg hn, Option.some_bind, mic_slope_eq_spec mics h3]

/-- Counterexample to claim C10 as stated: the readings `[1, 0, -2]`
carry numeric (but partly negative) MIC values, yet `calculate_mic_trend`
raises: the fold change is `-2`, the velocity exponent is the
non-integral `1/2`, and CPython evaluates `(-2.0) ** 0.5` to a `complex`,
on which `round(velocity, 3)` raises `TypeError` (modelled by `none`). -/
theorem c10_totality_counterexample :
    (calculate_mic_trend [1, 0, -2] none none).isSome = false := by
  have hlen : ¬ ([1, 0, -2] : List ℚ).length < 2 := by norm_num
  unfold calculate_mic_trend
  rw [if_neg hlen]
  have hdir : ∃ t, mic_trend_direction [1, 0, -2]
      (([1, 0, -2] : List ℚ).headI) (([1, 0, -2] : List ℚ).getLastD 0) =
        some t := mic_trend_direction_isSome _ _ _ (by norm_num)
  obtain ⟨t, ht⟩ := hdir
  have hv : mic_velocity [1, 0, -2] = none := by
    unfold mic_velocity
    rw [if_pos (by norm_num : 1 < ([1, 0, -2] : List ℚ).length)]
    norm_num [pydiv, mic_fold_change, QInf.powOpt]
  simp only [ht, hv, Option.some_bind, Option.none_bind, Option.isSome_none]

/-- Claim C10 (amended): for every readings list with NONNEGATIVE
numeric MIC values (any length, including 0) and any breakpoints,
`calculate_mic_trend` returns a result and never raises: short lists
take the sentinel branch, the guarded divisions cannot fail, and the
velocity power has a nonnegative (or infinite) base.  Moreover for
`n >= 3` the regression denominator is strictly positive, so the
source's guarded division-by-zero fallback (`slope = 0`) is
unreachable.  (Without the nonnegativity restriction the claim fails,
see the counterexample: a negative fold change with non-integral
exponent makes the velocity complex and `round` raises.) -/
theorem c10_totality (mics : List ℚ) (s r : Option ℚ)
    (hnn : ∀ x ∈ mics, 0 ≤ x) :
    (calculate_mic_trend mics s r).isSome = true ∧
    (3 ≤ mics.length → 0 < mic_slope_den mics) := by
  constructor
  · by_cases hlen : mics.length < 2
    · unfold calculate_mic_trend
      rw [if_pos hlen]
      rfl
    · have h2 : 2 ≤ mics.length := by omega
      obtain ⟨t, ht⟩ :=
        mic_trend_direction_isSome mics mics.headI (mics.getLastD 0) h2
      have hc : 0 ≤ mics.getLastD 0 :=
        hnn _ (getLastD_mem_of_ne_nil (ne_nil_of_two_le h2) 0)
      obtain ⟨v, hv⟩ := mic_velocity_some_of_current_nonneg mics h2 hc
      rw [calculate_mic_trend_eq mics s r t v h2 ht hv]
      rfl
  · exact fun h3 => mic_slope_den_pos mics h3

/-- Witness for the amended C10 at the concrete nonnegative input
`[1, 2, 4]`. -/
theorem c10_totality_witness :
    (calculate_mic_trend [1, 2, 4] (some 8) none).isSome = true ∧
    (3 ≤ ([1, 2, 4] : List ℚ).length → 0 < mic_slope_den [1, 2, 4]) :=
  c10_totality [1, 2, 4] (some 8) none (by norm_num)

/-- Counterexample to claim C3 as stated: for the two readings `[0, 0]`
the code's ratio is `float("inf")` (zero baseline), so the claim's
`ratio > 1.5` threshold demands "increasing", but the code compares
`current > baseline * 1.5`, i.e. `0 > 0`, and yields "stable". -/
theorem c3_trend_counterexample :
    (calculate_mic_trend [0, 0] none none).map
        (fun res => (res.trend, res.ratio)) =
      some ("stable", some QInf.inf) ∧
    spec_trend_two_from_ratio QInf.inf = "increasing" ∧
    ("stable" : String) ≠ "increasing" := by
  refine ⟨?_, by norm_num [spec_trend_two_from_ratio, QInf.gtQ], by decide⟩
  have ht : mic_trend_direction [0, 0] (([0, 0] : List ℚ).headI)
      (([0, 0] : List ℚ).getLastD 0) = some "stable" := by
    norm_num [mic_trend_direction, List.getLastD]
  have hv := mic_velocity_inf_of_baseline_nonpos [0, 0] (by norm_num)
    (le_of_eq rfl)
  rw [calculate_mic_trend_eq [0, 0] none none "stable" RInf.inf (by norm_num)
    ht hv]
  norm_num [mic_fold_change, QInf.roundTo]

/-- Claim C3 (amended): for nonnegative readings, with `n >= 3` the
trend is determined by the ordinary-least-squares slope (±0.5
thresholds), exactly as claimed; with `n == 2` the code compares
`current > baseline * 1.5` and `current < baseline * 0.67` - equivalent
to the claim's ratio thresholds whenever the baseline is positive, but
not for a zero baseline (see the counterexample); and for readings
`[2.0, 2.0, 2.1]` the trend is "stable" and the risk level "LOW". -/
theorem c3_trend_rule :
    (∀ (mics : List ℚ) (s r : Option ℚ), (∀ x ∈ mics, 0 ≤ x) →
      3 ≤ mics.length →
      ∃ res, calculate_mic_trend mics s r = some res ∧
        res.trend =
          (if 0.5 < spec_ols_slope mics then "increasing"
           else if spec_ols_slope mics < -0.5 then "decreasing"
           else "stable")) ∧
    (∀ (mics : List ℚ) (s r : Option ℚ), (∀ x ∈ mics, 0 ≤ x) →
      mics.length = 2 →
      ∃ res, calculate_mic_trend mics s r = some res ∧
        res.trend =
          (if mics.headI * 1.5 < mics.getLastD 0 then "increasing"
           else if mics.getLastD 0 < mics.headI * 0.67 then "decreasing"
           else "stable")) ∧
    (calculate_mic_trend [2, 2, 2.1] none none).map
        (fun res => (res.trend, res.risk_level)) = some ("stable", "LOW") := by
  refine ⟨?_, ?_, ?_⟩
  · intro mics s r hnn h3
    have h2 : 2 ≤ mics.length := by omega
    have hc : 0 ≤ mics.getLastD 0 :=
      hnn _ (getLastD_mem_of_ne_nil (ne_nil_of_two_le h2) 0)
    obtain ⟨v, hv⟩ := mic_velocity_some_of_current_nonneg mics h2 hc
    exact ⟨_, calculate_mic_trend_eq mics s r _ v h2
      (mic_trend_direction_slope mics mics.headI (mics.getLastD 0) h3) hv,
      rfl⟩
  · intro mics s r hnn hlen
    have h2 : 2 ≤ mics.length := by omega
    have hc : 0 ≤ mics.getLastD 0 :=
      hnn _ (getLastD_mem_of_ne_nil (ne_nil_of_two_le h2) 0)
    obtain ⟨v, hv⟩ := mic_velocity_some_of_current_nonneg mics h2 hc
    have ht : mic_trend_direction mics mics.headI (mics.getLastD 0) =
        some (if mics.headI * 1.5 < mics.getLastD 0 then "increasing"
              else if mics.getLastD 0 < mics.headI * 0.67 then "decreasing"
              else "stable") := by
      unfold mic_trend_direction
      rw [if_neg (by omega : ¬ 3 ≤ mics.length)]
    exact ⟨_, calculate_mic_trend_eq mics s r _ v h2 ht hv, rfl⟩
  · have hs1 : (("stable" : String) = "increasing") = False :=
      eq_false (by decide)
    have ht : mic_trend_direction [2, 2, 2.1] (([2, 2, 2.1] : List ℚ).headI)
        (([2, 2, 2.1] : List ℚ).getLastD 0) = some "stable" := by
      norm_num [mic_trend_direction, pydiv, mic_slope, mic_slope_num,
        mic_slope_den, List.range_succ, List.getLastD]
    have hc : (0 : ℚ) ≤ ([2, 2, 2.1] : List ℚ).getLastD 0 := by
      norm_num [List.getLastD]
    obtain ⟨v, hv⟩ :=
      mic_velocity_some_of_current_nonneg [2, 2, 2.1] (by norm_num) hc
    rw [calculate_mic_trend_eq [2, 2, 2.1] none none "stable" v (by norm_num)
      ht hv]
    norm_num [assess_mic_risk, mic_fold_change, QInf.geQ, List.getLastD, hs1]

/-- Witness for the amended C3: both universally quantified parts
applied at concrete inputs (`[1, 2, 4]` for the slope rule, `[1, 4]`
for the two-reading rule). -/
theorem c3_trend_rule_witness :
    (∃ res, calculate_mic_trend [1, 2, 4] none none = some res ∧
      res.trend =
        (if 0.5 < spec_ols_slope [1, 2, 4] then "increasing"
         else if spec_ols_slope [1, 2, 4] < -0.5 then "decreasing"
         else "stable")) ∧
    (∃ res, calculate_mic_trend [1, 4] none none = some res ∧
      res.trend =
        (if ([1, 4] : List ℚ).headI * 1.5 < ([1, 4] : List ℚ).getLastD 0
         then "increasing"
         else if ([1, 4] : List ℚ).getLastD 0 <
            ([1, 4] : List ℚ).headI * 0.67 then "decreasing"
         else "stable")) :=
  ⟨c3_trend_rule.1 [1, 2, 4] none none (by norm_num) (by norm_num),
   c3_trend_rule.2.1 [1, 4] none none (by norm_num) (by norm_num)⟩

lemma ibw_eq_spec (h : ℚ) (sex : Sex) :
    calculate_ibw h sex = qround 1 (spec_devine_ibw h sex) := by
  have hne : (Sex.female = Sex.male) = False := eq_false (by decide)
  cases sex with
  | male => simp [calculate_ibw, spec_devine_ibw]
  | female => simp [calculate_ibw, spec_devine_ibw, hne]

lemma calculate_crcl_pos (age weight scr : ℚ) (sex : Sex) (u : Bool)
    (height : Option ℚ) (ha : 0 < age) (hw : 0 < weight) (hs : 0 < scr) :
    calculate_crcl age weight scr sex u height =
      some (qround 1 (((140 - age) *
        (match height with
         | some h =>
             if u ∧ h ≠ 0 then
               let ibw := calculate_ibw h sex
               if ibw * 1.3 < weight then calculate_adjusted_bw ibw weight
               else ibw
             else weight
         | none => weight)) / (72 * scr) * spec_sex_factor sex)) := by
  unfold calculate_crcl
  rw [if_neg (not_le.2 hs), if_neg (not_or.2 ⟨not_le.2 ha, not_le.2 hw⟩)]
  cases sex with
  | male =>
      have hne : (Sex.male = Sex.female) = False := eq_false (by decide)
      simp only [spec_sex_factor, hne, if_false, reduceCtorEq, mul_one]
  | female =>
      simp only [spec_sex_factor, eq_self_iff_true, if_true]

lemma weight_used_eq (h weight : ℚ) (sex : Sex) :
    (let ibw := calculate_ibw h sex
     if ibw * 1.3 < weight then calculate_adjusted_bw ibw weight else ibw) =
      spec_weight_used h sex weight := by
  show (if calculate_ibw h sex * 1.3 < weight then
          calculate_adjusted_bw (calculate_ibw h sex) weight
        else calculate_ibw h sex) = spec_weight_used h sex weight
  rw [ibw_eq_spec]
  unfold spec_weight_used calculate_adjusted_bw
  rfl

/-- Counterexample to claim C5 as stated, at two concrete inputs.
First: for age 1, weight 70, SCr 0.1, male, height 170 cm, the code uses
the ROUNDED Devine weight 65.9 kg and returns 1272.2, while the claim's
unrounded `IBW = 50 + 2.3 * (170/2.54 - 60) = 65.937...` would give
1273.0.  Second: for height 0 cm (present but zero) the Python
truthiness guard skips the adjustment and the code uses the actual
weight (208.3), while the claim's formula (IBW 50, AdjBW 110) would
give 114.6. -/
theorem c5_weight_selection_counterexample :
    calculate_crcl 1 70 0.1 Sex.male true (some 170) = some 1272.2 ∧
    qround 1 (((140 - 1) * spec_devine_ibw 170 Sex.male) / (72 * 0.1) *
      spec_sex_factor Sex.male) = 1273.0 ∧
    (1272.2 : ℚ) ≠ 1273.0 ∧
    calculate_crcl 65 200 1 Sex.male true (some 0) = some 208.3 ∧
    qround 1 (((140 - 65) *
        (spec_devine_ibw 0 Sex.male +
          0.4 * (200 - spec_devine_ibw 0 Sex.male))) / (72 * 1) *
      spec_sex_factor Sex.male) = 114.6 ∧
    (208.3 : ℚ) ≠ 114.6 := by
  have hne : (Sex.male = Sex.female) = False := eq_false (by decide)
  refine ⟨?_, ?_, by norm_num, ?_, ?_, by norm_num⟩
  · norm_num [calculate_crcl, calculate_ibw, calculate_adjusted_bw, qround,
      round_eq, max_def, hne]
  · norm_num [spec_devine_ibw, spec_sex_factor, qround, round_eq, max_def,
      hne]
  · norm_num [calculate_crcl, calculate_ibw, calculate_adjusted_bw, qround,
      round_eq, max_def, hne]
  · norm_num [spec_devine_ibw, spec_sex_factor, qround, round_eq, max_def,
      hne]

/-- Claim C5 (amended): weight selection in `estimate_crcl`.  With
`use_ideal_weight = false` or `height_cm` absent (`None`) OR ZERO, the
actual weight is used and the adjustment step is silently skipped (no
error).  With `use_ideal_weight = true` and a nonzero height, the
weight used is the Devine IBW ROUNDED TO ONE DECIMAL, replaced by the
(also rounded) adjusted body weight `IBW + 0.4 * (actual - IBW)`
exactly when the actual weight exceeds `1.3 * IBW`; the code's
`calculate_ibw` equals the claim's Devine formula followed by rounding
to one decimal. -/
theorem c5_weight_selection :
    (∀ (age weight scr : ℚ) (sex : Sex),
      0 < age → 0 < weight → 0 < scr →
      calculate_crcl age weight scr sex true none =
        calculate_crcl age weight scr sex false none) ∧
    (∀ (age weight scr : ℚ) (sex : Sex),
      0 < age → 0 < weight → 0 < scr →
      calculate_crcl age weight scr sex true (some 0) =
        calculate_crcl age weight scr sex false (some 0)) ∧
    (∀ (age weight scr h : ℚ) (sex : Sex),
      0 < age → 0 < weight → 0 < scr → h ≠ 0 →
      calculate_crcl age weight scr sex true (some h) =
        some (qround 1 (((140 - age) * spec_weight_used h sex weight) /
          (72 * scr) * spec_sex_factor sex))) ∧
    (∀ (h : ℚ) (sex : Sex),
      calculate_ibw h sex = qround 1 (spec_devine_ibw h sex)) := by
  refine ⟨?_, ?_, ?_, fun h sex => ibw_eq_spec h sex⟩
  · intro age weight scr sex ha hw hs
    rw [calculate_crcl_pos age weight scr sex true none ha hw hs,
        calculate_crcl_pos age weight scr sex false none ha hw hs]
  · intro age weight scr sex ha hw hs
    rw [calculate_crcl_pos age weight scr sex true (some 0) ha hw hs,
        calculate_crcl_pos age weight scr sex false (some 0) ha hw hs]
    norm_num
  · intro age weight scr h sex ha hw hs hh
    rw [calculate_crcl_pos age weight scr sex true (some h) ha hw hs]
    have hm : (match (some h : Option ℚ) with
        | some h' =>
            if (true : Bool) ∧ h' ≠ 0 then
              let ibw := calculate_ibw h' sex
              if ibw * 1.3 < weight then calculate_adjusted_bw ibw weight
              else ibw
            else weight
        | none => weight) = spec_weight_used h sex weight := by
      show (if (true : Bool) ∧ h ≠ 0 then
              (let ibw := calculate_ibw h sex
               if ibw * 1.3 < weight then calculate_adjusted_bw ibw weight
               else ibw)
            else weight) = spec_weight_used h sex weight
      rw [if_pos ⟨rfl, hh⟩]
      exact weight_used_eq h weight sex
    rw [hm]

/-- Witness for the amended C5 at concrete inputs with the hypotheses
discharged. -/
theorem c5_weight_selection_witness :
    calculate_crcl 65 70 1 Sex.male true none =
      calculate_crcl 65 70 1 Sex.male false none ∧
    calculate_crcl 65 100 1 Sex.female true (some 170) =
      some (qround 1 (((140 - 65) * spec_weight_used 170 Sex.female 100) /
        (72 * 1) * spec_sex_factor Sex.female)) :=
  ⟨c5_weight_selection.1 65 70 1 Sex.male (by norm_num) (by norm_num)
      (by norm_num),
   c5_weight_selection.2.2.1 65 100 1 170 Sex.female (by norm_num)
      (by norm_num) (by norm_num) (by norm_num)⟩

lemma calc_result_fields (mics : List ℚ) (s r : Option ℚ) (ta : MicResult)
    (h : calculate_mic_trend mics s r = some ta) :
    ta = micInsufficientData ∨
    (2 ≤ mics.length ∧ ta.current_mic = some (mics.getLastD 0) ∧
      ∃ v, mic_velocity mics = some v ∧ ta.velocity = some v.roundTo3) := by
  unfold calculate_mic_trend at h
  by_cases hl : mics.length < 2
  · rw [if_pos hl] at h
    exact Or.inl (Option.some.inj h).symm
  · rw [if_neg hl] at h
    obtain ⟨t, ht, h2⟩ := Option.bind_eq_some.1 h
    obtain ⟨v, hv, h3⟩ := Option.bind_eq_some.1 h2
    refine Or.inr ⟨by omega, ?_, v, hv, ?_⟩
    · rw [← Option.some.inj h3]
    · rw [← Option.some.inj h3]

lemma creep_estimate_none_of_not_cond (sbp : Option ℚ) (ta : MicResult)
    (h : ¬ (ta.trend = "increasing" ∧ velocityKeyGtOne ta.velocity)) :
    creep_estimate sbp ta = none := by
  unfold creep_estimate
  rw [if_neg h]

lemma creep_estimate_none_of_no_bp (ta : MicResult) :
    creep_estimate none ta = none := by
  unfold creep_estimate
  by_cases h : ta.trend = "increasing" ∧ velocityKeyGtOne ta.velocity
  · rw [if_pos h]
  · rw [if_neg h]

lemma creep_estimate_cur_none (sb : ℚ) (ta : MicResult)
    (hcur : ta.current_mic = none) :
    creep_estimate (some sb) ta = none := by
  unfold creep_estimate
  by_cases h : ta.trend = "increasing" ∧ velocityKeyGtOne ta.velocity
  · rw [if_pos h, hcur]
  · rw [if_neg h]

lemma creep_estimate_vel_none (sb : ℚ) (ta : MicResult)
    (hvel : ta.velocity = none) :
    creep_estimate (some sb) ta = none := by
  unfold creep_estimate
  by_cases h : ta.trend = "increasing" ∧ velocityKeyGtOne ta.velocity
  · rw [if_pos h, hvel]
    rcases hcur : ta.current_mic with _ | c <;> rfl
  · rw [if_neg h]

lemma creep_estimate_some_some (sb c : ℚ) (vel : RInf) (ta : MicResult)
    (hcur : ta.current_mic = some c) (hvel : ta.velocity = some vel)
    (hcond : ta.trend = "increasing" ∧ velocityKeyGtOne ta.velocity) :
    creep_estimate (some sb) ta =
      if sb ≠ 0 ∧ c < sb then
        timeEstimate vel
          (if 0 < c then Real.logb 2 ((sb : ℝ) / (c : ℝ)) else 0)
      else none := by
  unfold creep_estimate
  rw [if_pos hcond, hcur, hvel]

lemma creep_estimate_none_of_reached (sb c : ℚ) (ta : MicResult)
    (hcur : ta.current_mic = some c) (hle : sb ≤ c) :
    creep_estimate (some sb) ta = none := by
  by_cases h : ta.trend = "increasing" ∧ velocityKeyGtOne ta.velocity
  · rcases hvel : ta.velocity with _ | v
    · exact creep_estimate_vel_none sb ta hvel
    · rw [creep_estimate_some_some sb c v ta hcur hvel h]
      exact if_neg (fun hc => absurd hc.2 (not_lt.2 hle))
  · exact creep_estimate_none_of_not_cond _ _ h

lemma creep_estimate_eq_some (sbp : Option ℚ) (ta : MicResult) (t : ℝ)
    (h : creep_estimate sbp ta = some t) :
    ta.trend = "increasing" ∧ velocityKeyGtOne ta.velocity ∧
    ∃ sb c vel, sbp = some sb ∧ ta.current_mic = some c ∧
      ta.velocity = some vel ∧ sb ≠ 0 ∧ c < sb ∧
      timeEstimate vel
        (if 0 < c then Real.logb 2 ((sb : ℝ) / (c : ℝ)) else 0) = some t := by
  by_cases hcond : ta.trend = "increasing" ∧ velocityKeyGtOne ta.velocity
  · refine ⟨hcond.1, hcond.2, ?_⟩
    rcases hsb : sbp with _ | sb
    · rw [hsb, creep_estimate_none_of_no_bp] at h
      exact absurd h (by simp)
    · rcases hcur : ta.current_mic with _ | c
      · rw [hsb, creep_estimate_cur_none sb ta hcur] at h
        exact absurd h (by simp)
      · rcases hvel : ta.velocity with _ | v
        · rw [hsb, creep_estimate_vel_none sb ta hvel] at h
          exact absurd h (by simp)
        · rw [hsb, creep_estimate_some_some sb c v ta hcur hvel hcond] at h
          by_cases hss : sb ≠ 0 ∧ c < sb
          · rw [if_pos hss] at h
            exact ⟨sb, c, v, rfl, rfl, rfl, hss.1, hss.2, h⟩
          · rw [if_neg hss] at h
            exact absurd h (by simp)
  · rw [creep_estimate_none_of_not_cond _ _ hcond] at h
    exact absurd h (by simp)

/-- Claim C7 (amended): in `detect_mic_creep` over positive readings,
the `estimated_readings_to_resistance` field is present ONLY when the
trend is increasing, the reported velocity exceeds 1, a susceptible
breakpoint is supplied and the current MIC is below it; it is absent
whenever the current MIC has reached the breakpoint, or the reported
velocity is at most 1, or no susceptible breakpoint is supplied.  When
present, its value is `doublings_needed / log2(velocity)` ROUNDED TO
ONE DECIMAL, where `doublings_needed = log2(s_bp / current)` and
`velocity` is the REPORTED velocity of the trend result (the
per-step growth factor `ratio^(1/(n-1))` rounded to three decimals);
for an infinite velocity (zero baseline) the estimate is `0`. -/
theorem c7_time_to_resistance (organism antibiotic : String)
    (mics : List ℚ) (sbp rbp : Option ℚ) (res : CreepResult)
    (hpos : ∀ x ∈ mics, 0 < x)
    (hdet : detect_mic_creep organism antibiotic mics sbp rbp = some res) :
    (res.estimated_readings_to_resistance ≠ none →
      res.base.trend = "increasing" ∧
      (∃ v, res.base.velocity = some v ∧ v.gtOne) ∧
      (∃ sb c, sbp = some sb ∧ res.base.current_mic = some c ∧ c < sb)) ∧
    (∀ sb c, sbp = some sb → res.base.current_mic = some c → sb ≤ c →
      res.estimated_readings_to_resistance = none) ∧
    (∀ v, res.base.velocity = some v → ¬ v.gtOne →
      res.estimated_readings_to_resistance = none) ∧
    (sbp = none → res.estimated_readings_to_resistance = none) ∧
    (∀ t, res.estimated_readings_to_resistance = some t →
      ∃ sb c, sbp = some sb ∧ res.base.current_mic = some c ∧
        0 < c ∧ c < sb ∧
        ((res.base.velocity = some RInf.inf ∧ t = 0) ∨
         (∃ x, res.base.velocity = some (RInf.fin x) ∧ 1 < x ∧
           t = rround 1 (Real.logb 2 ((sb : ℝ) / (c : ℝ)) /
             (Real.log x / Real.log 2))))) := by
  unfold detect_mic_creep at hdet
  obtain ⟨ta, hta, hres⟩ := Option.bind_eq_some.1 hdet
  have hres' : res =
      ⟨ta, organism, antibiotic, sbp, rbp, creep_estimate sbp ta⟩ :=
    (Option.some.inj hres).symm
  subst hres'
  refine ⟨?_, ?_, ?_, ?_, ?_⟩
  · intro hne
    rcases hE : creep_estimate sbp ta with _ | t
    · exact absurd hE hne
    · obtain ⟨htr, hgt, sb, c, vel, hsb, hcur, hvel, _, hlt, _⟩ :=
        creep_estimate_eq_some sbp ta t hE
      refine ⟨htr, ⟨vel, hvel, ?_⟩, sb, c, hsb, hcur, hlt⟩
      rw [hvel] at hgt
      exact hgt
  · intro sb c hsb hcur hle
    subst hsb
    exact creep_estimate_none_of_reached sb c ta hcur hle
  · intro v hvel hngt
    refine creep_estimate_none_of_not_cond sbp ta (fun hc => ?_)
    rw [hvel] at hc
    exact hngt hc.2
  · intro hsb
    subst hsb
    exact creep_estimate_none_of_no_bp ta
  · intro t hE
    obtain ⟨htr, hgt, sb, c, vel, hsb, hcur, hvel, hsb0, hlt, hte⟩ :=
      creep_estimate_eq_some sbp ta t hE
    have hc0 : 0 < c := by
      rcases calc_result_fields mics sbp rbp ta hta with hsent | ⟨h2, hcur2, _⟩
      · rw [hsent] at htr
        exact absurd htr (by decide)
      · rw [hcur] at hcur2
        obtain rfl := Option.some.inj hcur2
        exact hpos _ (getLastD_mem_of_ne_nil (ne_nil_of_two_le h2) 0)
    refine ⟨sb, c, hsb, hcur, hc0, hlt, ?_⟩
    rw [if_pos hc0] at hte
    cases vel with
    | inf =>
        left
        refine ⟨hvel, ?_⟩
        unfold timeEstimate at hte
        exact (Option.some.inj hte).symm
    | fin x =>
        right
        have hx : 1 < x := by
          rw [hvel] at hgt
          exact hgt
        refine ⟨x, hvel, hx, ?_⟩
        have hlv : 0 < Real.log x / Real.log 2 :=
          div_pos (Real.log_pos hx) (Real.log_pos (by norm_num))
        have hte' : (if 0 < Real.log x / Real.log 2 then
            some (rround 1 (Real.logb 2 ((sb : ℝ) / (c : ℝ)) /
              (Real.log x / Real.log 2)))
            else none) = some t := hte
        rw [if_pos hlv] at hte'
        exact (Option.some.inj hte').symm

lemma logb_two_two : Real.logb 2 2 = 1 :=
  Real.logb_self_eq_one (by norm_num)

lemma logb_two_four : Real.logb 2 4 = 2 := by
  rw [show (4 : ℝ) = 2 ^ (2 : ℕ) by norm_num, Real.logb_pow, logb_two_two]
  norm_num

lemma logb_two_eight : Real.logb 2 8 = 3 := by
  rw [show (8 : ℝ) = 2 ^ (3 : ℕ) by norm_num, Real.logb_pow, logb_two_two]
  norm_num

lemma rround_one_one : rround 1 1 = 1 := by
  unfold rround
  norm_num [round_eq]

lemma rround_one_third : rround 1 (1 / 3) = 3 / 10 := by
  unfold rround
  have h : (1 : ℝ) / 3 * 10 ^ 1 + 1 / 2 = 23 / 6 := by norm_num
  rw [round_eq, h, show ⌊(23 / 6 : ℝ)⌋ = 3 by norm_num [Int.floor_eq_iff]]
  norm_num

lemma rround_three_four : rround 3 4 = 4 := by
  unfold rround
  norm_num [round_eq]

lemma rround_three_eight : rround 3 8 = 8 := by
  unfold rround
  norm_num [round_eq]

lemma mic_velocity_pair (a b : ℚ) (ha : 0 < a) :
    mic_velocity [a, b] = some (RInf.fin ((b / a : ℚ) : ℝ)) := by
  unfold mic_velocity
  rw [if_pos (by norm_num : 1 < ([a, b] : List ℚ).length)]
  have h1 : (([a, b] : List ℚ).length : ℚ) - 1 = 1 := by norm_num
  rw [h1]
  have hfold : mic_fold_change [a, b] = QInf.fin (b / a) := by
    unfold mic_fold_change
    rw [if_pos (by simpa using ha)]
    simp [List.getLastD]
  simp only [pydiv, if_neg (by norm_num : (1 : ℚ) ≠ 0), Option.some_bind,
    hfold, QInf.powOpt]
  rw [if_neg (by norm_num), div_one]
  norm_num [Real.rpow_one]

/-- Witness for the amended C7: concrete readings `[1, 4]` with
breakpoints 16/32 produce a present estimate of `1.0`
(`doublings = log2(16/4) = 2`, `log2(velocity) = log2(4) = 2`), and the
amended theorem applied to this input yields the presence conditions. -/
theorem c7_time_to_resistance_witness :
    ∃ res, detect_mic_creep "Escherichia coli" "ciprofloxacin" [1, 4]
        (some 16) (some 32) = some res ∧
      res.estimated_readings_to_resistance = some 1 ∧
      res.base.trend = "increasing" := by
  have ht : mic_trend_direction [1, 4] (([1, 4] : List ℚ).headI)
      (([1, 4] : List ℚ).getLastD 0) = some "increasing" := by
    norm_num [mic_trend_direction, List.getLastD]
  have hv : mic_velocity [1, 4] = some (RInf.fin 4) := by
    rw [mic_velocity_pair 1 4 one_pos]
    norm_num
  have hcalc : calculate_mic_trend [1, 4] (some 16) (some 32) =
      some ⟨"increasing", "LOW", MicAlert.wellBelowBreakpoint, some 1, some 4,
            some (QInf.fin 4), some (RInf.fin 4), some 2⟩ := by
    rw [calculate_mic_trend_eq [1, 4] (some 16) (some 32) "increasing"
      (RInf.fin 4) (by norm_num) ht hv]
    norm_num [assess_mic_risk, mic_fold_change, mic_margin, QInf.ltQ,
      QInf.roundTo, qround, round_eq, RInf.roundTo3, rround_three_four,
      List.getLastD]
  set TA : MicResult := ⟨"increasing", "LOW", MicAlert.wellBelowBreakpoint,
    some 1, some 4, some (QInf.fin 4), some (RInf.fin 4), some 2⟩ with hTAdef
  have htrend : TA.trend = "increasing" := rfl
  have hcur : TA.current_mic = some 4 := rfl
  have hvel : TA.velocity = some (RInf.fin 4) := rfl
  have hdet : detect_mic_creep "Escherichia coli" "ciprofloxacin" [1, 4]
      (some 16) (some 32) =
      some ⟨TA, "Escherichia coli", "ciprofloxacin", some 16, some 32,
            creep_estimate (some 16) TA⟩ := by
    unfold detect_mic_creep
    rw [hcalc]
    rfl
  have hE : creep_estimate (some 16) TA = some 1 := by
    rw [creep_estimate_some_some 16 4 (RInf.fin 4) TA hcur hvel
      ⟨htrend, by rw [hvel]; show (1 : ℝ) < 4; norm_num⟩]
    rw [if_pos ⟨by norm_num, by norm_num⟩, if_pos (by norm_num : (0 : ℚ) < 4)]
    have hcast : (((16 : ℚ) : ℝ) / ((4 : ℚ) : ℝ)) = 4 := by
      push_cast
      norm_num
    have hlv : 0 < Real.log 4 / Real.log 2 :=
      div_pos (Real.log_pos (by norm_num)) (Real.log_pos (by norm_num))
    show (if 0 < Real.log 4 / Real.log 2 then
        some (rround 1 (Real.logb 2 (((16 : ℚ) : ℝ) / ((4 : ℚ) : ℝ)) /
          (Real.log 4 / Real.log 2)))
      else none) = some 1
    rw [if_pos hlv, hcast]
    have hlogb : Real.log 4 / Real.log 2 = Real.logb 2 4 := rfl
    rw [hlogb, logb_two_four, show (2 : ℝ) / 2 = 1 by norm_num,
      rround_one_one]
  have hpos : ∀ x ∈ ([1, 4] : List ℚ), 0 < x := by
    intro x hx
    simp only [List.mem_cons, List.not_mem_nil, or_false] at hx
    rcases hx with rfl | rfl <;> norm_num
  refine ⟨_, hdet, hE, ?_⟩
  have happ := (c7_time_to_resistance "Escherichia coli" "ciprofloxacin"
    [1, 4] (some 16) (some 32) _ hpos hdet).1
  refine (happ ?_).1
  show creep_estimate (some 16) TA ≠ none
  rw [hE]
  exact Option.some_ne_none 1

/-- Counterexample to claim C7 as stated: for readings `[1, 8]` with
susceptible breakpoint 16, the code stores the estimate
`round(doublings / log2(velocity), 1) = round(1/3, 1) = 0.3`, whereas
the claim's exact formula `doublings_needed / log2(velocity)` with
`velocity = ratio^(1/(n-1)) = 8` equals `1/3`; the two differ, so the
estimate does not "equal" the claim's expression - it is that value
rounded to one decimal. -/
theorem c7_time_to_resistance_counterexample :
    (∃ res, detect_mic_creep "Klebsiella pneumoniae" "meropenem" [1, 8]
        (some 16) (some 32) = some res ∧
      res.estimated_readings_to_resistance = some (3 / 10)) ∧
    Real.logb 2 ((16 : ℝ) / 8) /
      Real.logb 2 ((8 : ℝ) ^ ((1 : ℝ) / (2 - 1))) = 1 / 3 ∧
    ((3 : ℝ) / 10) ≠ 1 / 3 := by
  refine ⟨?_, ?_, by norm_num⟩
  · have ht : mic_trend_direction [1, 8] (([1, 8] : List ℚ).headI)
        (([1, 8] : List ℚ).getLastD 0) = some "increasing" := by
      norm_num [mic_trend_direction, List.getLastD]
    have hv : mic_velocity [1, 8] = some (RInf.fin 8) := by
      rw [mic_velocity_pair 1 8 one_pos]
      norm_num
    have hcalc : calculate_mic_trend [1, 8] (some 16) (some 32) =
        some ⟨"increasing", "MODERATE",
              MicAlert.risingWithMargin (QInf.fin 2), some 1, some 8,
              some (QInf.fin 8), some (RInf.fin 8), some 2⟩ := by
      rw [calculate_mic_trend_eq [1, 8] (some 16) (some 32) "increasing"
        (RInf.fin 8) (by norm_num) ht hv]
      norm_num [assess_mic_risk, mic_fold_change, mic_margin, QInf.ltQ,
        QInf.roundTo, qround, round_eq, RInf.roundTo3, rround_three_eight,
        List.getLastD]
    set TA : MicResult := ⟨"increasing", "MODERATE",
      MicAlert.risingWithMargin (QInf.fin 2), some 1, some 8,
      some (QInf.fin 8), some (RInf.fin 8), some 2⟩ with hTAdef
    have htrend : TA.trend = "increasing" := rfl
    have hcur : TA.current_mic = some 8 := rfl
    have hvel : TA.velocity = some (RInf.fin 8) := rfl
    have hdet : detect_mic_creep "Klebsiella pneumoniae" "meropenem" [1, 8]
        (some 16) (some 32) =
        some ⟨TA, "Klebsiella pneumoniae", "meropenem", some 16, some 32,
              creep_estimate (some 16) TA⟩ := by
      unfold detect_mic_creep
      rw [hcalc]
      rfl
    have hE : creep_estimate (some 16) TA = some (3 / 10) := by
      rw [creep_estimate_some_some 16 8 (RInf.fin 8) TA hcur hvel
        ⟨htrend, by rw [hvel]; show (1 : ℝ) < 8; norm_num⟩]
      rw [if_pos ⟨by norm_num, by norm_num⟩,
        if_pos (by norm_num : (0 : ℚ) < 8)]
      have hcast : (((16 : ℚ) : ℝ) / ((8 : ℚ) : ℝ)) = 2 := by
        push_cast
        norm_num
      have hlv : 0 < Real.log 8 / Real.log 2 :=
        div_pos (Real.log_pos (by norm_num)) (Real.log_pos (by norm_num))
      show (if 0 < Real.log 8 / Real.log 2 then
          some (rround 1 (Real.logb 2 (((16 : ℚ) : ℝ) / ((8 : ℚ) : ℝ)) /
            (Real.log 8 / Real.log 2)))
        else none) = some (3 / 10)
      rw [if_pos hlv, hcast]
      have hlogb : Real.log 8 / Real.log 2 = Real.logb 2 8 := rfl
      rw [hlogb, logb_two_two, logb_two_eight,
        show (1 : ℝ) / 3 = 1 / 3 from rfl, rround_one_third]
    exact ⟨_, hdet, hE⟩
  · rw [show (16 : ℝ) / 8 = 2 by norm_num,
      show (1 : ℝ) / (2 - 1) = 1 by norm_num, Real.rpow_one,
      logb_two_two, logb_two_eight]
